import Mathlib

/-!
# Verification of the file-intent classification engine

Shallow embedding of `crates/app/src/file_intent.rs` (`get_file_intent`),
together with the Unix semantics of the Rust `std::path` operations it
relies on (`Path::extension`, `Path::file_name`, `Path::iter`,
`Path::join`, component-wise `Path` equality).

The descriptor extractor (`get_descriptor`) and the name normalizer
(`clean_episode_title`, `clean_series_name`) live in
`crates/app/src/file_descriptor.rs`, which is not part of the sources
here; the specification treats them as black boxes behind a contract, so
the embedding takes them as function parameters.
-/

set_option autoImplicit false

namespace FileIntentSpec

/-! ## Unix path semantics (model of Rust `std::path` on Unix) -/

/-- A parsed path component, as in Rust `std::path::Component` (Unix: no
prefix component). -/
inductive PathComponent
  | rootDir
  | curDir
  | parentDir
  | normal (s : String)
deriving DecidableEq, Repr

/-- Turn a raw non-empty, non-`.` piece into a component. -/
def mkComponent (p : List Char) : PathComponent :=
  if p = ['.', '.'] then PathComponent.parentDir else PathComponent.normal (String.mk p)

/-- The non-empty pieces of a path string split at `/` (Rust's byte-level
path splitting keeps empty pieces, which the component iterator then
collapses). -/
def pathPieces (s : String) : List (List Char) :=
  (s.toList.splitOn '/').filter (fun p => p ≠ [])

/-- Rust `Path::components` on Unix: a leading `/` yields `RootDir`; empty
pieces collapse; `.` pieces are dropped except a leading `.` of a relative
path, which is kept as `CurDir`. -/
def pathComponents (s : String) : List PathComponent :=
  let isAbs : Bool := s.toList.head? = some '/'
  let root := if isAbs then [PathComponent.rootDir] else []
  let body :=
    match pathPieces s with
    | [] => []
    | p :: rest =>
      if p = ['.'] ∧ isAbs = false then
        PathComponent.curDir :: (rest.filter (fun q => q ≠ ['.'])).map mkComponent
      else
        ((p :: rest).filter (fun q => q ≠ ['.'])).map mkComponent
  root ++ body

/-- The string a component shows as when iterating a path (`Path::iter`). -/
def componentToString : PathComponent → String
  | PathComponent.rootDir => "/"
  | PathComponent.curDir => "."
  | PathComponent.parentDir => ".."
  | PathComponent.normal s => s

/-- Rust `Path::iter`: the components of the path, each as a string. -/
def pathIterStrings (s : String) : List String :=
  (pathComponents s).map componentToString

/-- Rust `Path::file_name`: the last component when it is a normal
component, else `none`. -/
def pathFileName (s : String) : Option String :=
  match (pathComponents s).getLast? with
  | some (PathComponent.normal f) => some f
  | _ => none

/-- Rust `rsplit_file_at_dot` folded into the extension computation: split
the file name at its last dot; no dot, or only a leading dot, means no
extension. -/
def extensionOfFileName (f : String) : Option String :=
  if f = ".." then none
  else
    match f.toList.splitOn '.' with
    | [] => none
    | [_] => none
    | p :: q :: ps =>
      let parts := p :: q :: ps
      let after := parts.getLastD []
      let before := List.intercalate ['.'] parts.dropLast
      if before = [] then none else some (String.mk after)

/-- Rust `Path::extension`: the extension of the file name, when both
exist. -/
def pathExtension (s : String) : Option String :=
  (pathFileName s).bind extensionOfFileName

/-- Rust `Path::join` on Unix: an absolute right side replaces the left;
otherwise a `/` is inserted unless the left side is empty or already ends
with `/`. -/
def pathJoin (a b : String) : String :=
  if b.toList.head? = some '/' then b
  else
    match a.toList.getLast? with
    | none => b
    | some c => if c = '/' then a ++ b else a ++ "/" ++ b

/-! ## Decimal formatting (model of Rust `format!("{:02}", n)`) -/

/-- The decimal digit character for `d < 10`. -/
def digitChar (d : Nat) : Char :=
  Char.ofNat (48 + d)

/-- The decimal digits of `n`, most significant first; structurally
recursive on a fuel argument so that it reduces definitionally (the fuel
`n + 1` always suffices since `n / 10 < n` for `n ≥ 10`). -/
def natToDecCharsAux : Nat → Nat → List Char
  | 0, _ => []
  | fuel + 1, n =>
    if n < 10 then [digitChar n]
    else natToDecCharsAux fuel (n / 10) ++ [digitChar (n % 10)]

/-- The decimal digits of `n`, most significant first. -/
def natToDecChars (n : Nat) : List Char :=
  natToDecCharsAux (n + 1) n

/-- Standard decimal rendering of a natural number. -/
def natToDec (n : Nat) : String :=
  String.mk (natToDecChars n)

/-- Rust `format!("{:02}", n)`: decimal, zero-padded on the left to at
least two characters. -/
def fmt02 (n : Nat) : String :=
  if n < 10 then "0" ++ natToDec n else natToDec n

/-! ## Data model (from `file_intent.rs` and the cache it reads) -/

/-- The five terminal classification actions (`Action` in
`file_intent.rs`). -/
inductive Action
  | Rename
  | Complete
  | Ignore
  | Delete
  | Whitelist
deriving DecidableEq, Repr

/-- Season/episode value identity (`EpisodeKey` in `tvdb_cache.rs`,
used as the cache lookup key). -/
structure EpisodeKey where
  season : Nat
  episode : Nat
deriving DecidableEq, Repr

/-- The result of classifying one file (`FileIntent`). -/
structure FileIntent where
  action : Action
  dest : String
  descriptor : Option EpisodeKey
deriving DecidableEq, Repr

/-- The filter rule set (`FilterRules`). -/
structure FilterRules where
  blacklist_extensions : List String
  whitelist_folders : List String
  whitelist_filenames : List String
  whitelist_tags : List String
deriving DecidableEq, Repr

/-- An extracted filename descriptor: season, episode and the ordered
tags, as produced by `get_descriptor`. -/
structure Descriptor where
  season : Nat
  episode : Nat
  tags : List String
deriving DecidableEq, Repr

/-- An episode record of the metadata cache: only its optional title is
read by the engine. -/
structure Episode where
  name : Option String
deriving DecidableEq, Repr

/-- The series record of the metadata cache: only its name is read. -/
structure SeriesInfo where
  name : String
deriving DecidableEq, Repr

/-- The metadata cache (`TvdbCache`) as the engine reads it: the series
name, the episode records, and the map from `EpisodeKey` to an index into
the episode records (a hash map, modelled as an association list). -/
structure TvdbCache where
  series : SeriesInfo
  episodes : List Episode
  episode_cache : List (EpisodeKey × Nat)
deriving DecidableEq, Repr

/-- Membership of a string in a rule list (Rust `Vec::contains`). -/
def memStr (xs : List String) (x : String) : Bool :=
  xs.any (fun y => y = x)

/-- The whitelist-folder loop of `get_file_intent`: true when any path
component is in `whitelist_folders`. -/
def anyFolderWhitelisted (rules : FilterRules) (comps : List String) : Bool :=
  comps.any (fun c => memStr rules.whitelist_folders c)

/-- Association-list lookup modelling `HashMap::get` on the episode
cache. -/
def lookupIndex (m : List (EpisodeKey × Nat)) (k : EpisodeKey) : Option Nat :=
  match m with
  | [] => none
  | (k', v) :: rest => if k' = k then some v else lookupIndex rest k

/-! ## The engine (`get_file_intent`) -/

/-- The `new_episode_title` computation of `get_file_intent`: a cache
miss, a missing title, or a title that cleans to the empty string give the
empty suffix; a non-empty cleaned title gives `"-" ++ title`. The outer
`Option` models the Rust panic when a cached index is out of bounds for
`cache.episodes`; `none` is that panic. -/
def computeEpisodeTitle? (cet : String → String) (cache : TvdbCache)
    (k : EpisodeKey) : Option String :=
  match lookupIndex cache.episode_cache k with
  | none => some ""
  | some index =>
    match cache.episodes.get? index with
    | none => none
    | some episode =>
      match episode.name with
      | none => some ""
      | some name =>
        let clean_name := cet name
        if clean_name = "" then some "" else some ("-" ++ clean_name)

/-- The `tags_string` computation of `get_file_intent`: keep the tags that
are in `whitelist_tags`, in order, each formatted `.[tag]`, concatenated
with no separator. -/
def computeTagsString (rules : FilterRules) (tags : List String) : String :=
  String.join ((tags.filter (fun tag => memStr rules.whitelist_tags tag)).map
    (fun tag => ".[" ++ tag ++ "]"))

/-- The `new_filename` computation of `get_file_intent` (the
`format!("{}-S{:02}E{:02}{}{}.{}", ...)` call); `none` propagates the
out-of-bounds panic of the title lookup. -/
def computeNewFilename (cet csn : String → String) (rules : FilterRules)
    (cache : TvdbCache) (ext : String) (d : Descriptor) : Option String :=
  (computeEpisodeTitle? cet cache ⟨d.season, d.episode⟩).map (fun title =>
    csn cache.series.name ++ "-S" ++ fmt02 d.season ++ "E" ++ fmt02 d.episode
      ++ title ++ computeTagsString rules d.tags ++ "." ++ ext)

/-- `get_file_intent` from `file_intent.rs`, parameterized by the
black-box descriptor extractor `gd` (`get_descriptor`), episode-title
cleaner `cet` (`clean_episode_title`) and series-name cleaner `csn`
(`clean_series_name`). The result is `none` exactly when the Rust code
panics (out-of-bounds episode index); otherwise `some` of the returned
`FileIntent`. -/
def get_file_intent (gd : String → Option Descriptor) (cet csn : String → String)
    (path_str : String) (rules : FilterRules) (cache : TvdbCache) :
    Option FileIntent :=
  match pathExtension path_str with
  | none => some ⟨Action.Delete, "", none⟩
  | some extension =>
    match pathFileName path_str with
    | none => some ⟨Action.Delete, "", none⟩
    | some filename =>
      if memStr rules.blacklist_extensions extension then
        some ⟨Action.Delete, "", none⟩
      else if anyFolderWhitelisted rules (pathIterStrings path_str) then
        some ⟨Action.Whitelist, "", none⟩
      else if memStr rules.whitelist_filenames filename then
        some ⟨Action.Whitelist, "", none⟩
      else
        match gd filename with
        | none => some ⟨Action.Ignore, "", none⟩
        | some descriptor =>
          let episode_key : EpisodeKey := ⟨descriptor.season, descriptor.episode⟩
          match computeNewFilename cet csn rules cache extension descriptor with
          | none => none
          | some new_filename =>
            let new_folder := "Season " ++ fmt02 descriptor.season
            let new_path_str := pathJoin new_folder new_filename
            if pathComponents new_path_str = pathComponents path_str then
              some ⟨Action.Complete, "", some episode_key⟩
            else
              some ⟨Action.Rename, new_path_str, some episode_key⟩

/-- Spec-side definition of the tags segment, written from the spec's
words ("filter the descriptor's tags to only those present in
whitelist_tags, preserving original order; format each surviving tag as
`\x22.[\x22 + tag + \x22]\x22` and concatenate in order; if none survive,
this segment is empty"), to be compared with the engine's
`computeTagsString`. -/
def specTagsSegment (whitelist : List String) (tags : List String) : String :=
  String.join ((tags.filter (fun tag => memStr whitelist tag)).map
    (fun tag => ".[" ++ tag ++ "]"))

/-! ## Helper lemmas about the path model -/

theorem toList_append (a b : String) : (a ++ b).toList = a.toList ++ b.toList :=
  rfl

theorem mk_toList (s : String) : String.mk s.toList = s :=
  rfl

theorem length_eq_toList_length (s : String) : s.length = s.toList.length :=
  rfl

theorem ne_of_toList_length_ne {a b : String}
    (h : a.toList.length ≠ b.toList.length) : a ≠ b := by
  intro hab
  exact h (by rw [hab])

theorem splitOn_char_ne_nil (sep : Char) (cs : List Char) :
    cs.splitOn sep ≠ [] :=
  List.splitOnP_ne_nil _ cs

theorem modifyHead_append_left {α : Type} (f : List α → List α)
    (a b : List (List α)) (h : a ≠ []) :
    List.modifyHead f (a ++ b) = List.modifyHead f a ++ b := by
  cases a with
  | nil => exact absurd rfl h
  | cons x xs => rfl

theorem splitOn_char_append (sep : Char) (xs ys : List Char) :
    (xs ++ sep :: ys).splitOn sep = xs.splitOn sep ++ ys.splitOn sep := by
  induction xs with
  | nil =>
    simp only [List.nil_append, List.splitOn, List.splitOnP_cons, beq_self_eq_true,
      if_true, List.splitOnP_nil]
    rfl
  | cons x xs ih =>
    simp only [List.cons_append, List.splitOn, List.splitOnP_cons] at ih ⊢
    by_cases hx : x = sep
    · simp [hx, ih]
    · simp only [beq_iff_eq, hx, if_false, ih]
      exact modifyHead_append_left _ _ _ (List.splitOnP_ne_nil _ xs)

theorem splitOn_char_of_not_mem {sep : Char} {cs : List Char} (h : sep ∉ cs) :
    cs.splitOn sep = [cs] := by
  simp only [List.splitOn]
  refine List.splitOnP_eq_single _ _ (fun x hx => ?_)
  simp only [beq_iff_eq]
  intro he
  subst he
  exact h hx

theorem not_mem_of_mem_splitOn_char {sep : Char} {cs p : List Char}
    (hp : p ∈ cs.splitOn sep) : sep ∉ p := by
  induction cs generalizing p with
  | nil =>
    simp only [List.splitOn_nil, List.mem_singleton] at hp
    subst hp; simp
  | cons c rest ih =>
    simp only [List.splitOn, List.splitOnP_cons] at hp ih
    by_cases hc : c = sep
    · simp only [beq_iff_eq, hc, if_true] at hp
      rcases List.mem_cons.mp hp with h1 | h2
      · subst h1; simp
      · exact ih h2
    · simp only [beq_iff_eq, hc, if_false] at hp
      cases h : rest.splitOnP (fun x => x == sep) with
      | nil => exact absurd h (List.splitOnP_ne_nil _ rest)
      | cons q qs =>
        rw [h] at hp
        rcases List.mem_cons.mp hp with h1 | h2
        · subst h1
          intro hmem
          rcases List.mem_cons.mp hmem with h3 | h4
          · exact hc h3.symm
          · exact ih (by rw [h]; exact List.mem_cons_self q qs) h4
        · exact ih (by rw [h]; exact List.mem_cons_of_mem q h2)

theorem intercalate_splitOn_char (sep : Char) (cs : List Char) :
    List.intercalate [sep] (cs.splitOn sep) = cs :=
  List.intercalate_splitOn cs sep

theorem digitChar_lt_ne_slash {d : Nat} (h : d < 10) : digitChar d ≠ '/' := by
  interval_cases d <;> decide

theorem natToDecCharsAux_no_slash (fuel n : Nat) :
    ('/' : Char) ∉ natToDecCharsAux fuel n := by
  induction fuel generalizing n with
  | zero => simp [natToDecCharsAux]
  | succ fuel ih =>
    simp only [natToDecCharsAux]
    split
    · simp only [List.mem_singleton]
      intro hc
      exact digitChar_lt_ne_slash (by assumption) hc.symm
    · simp only [List.mem_append, List.mem_singleton, not_or]
      refine ⟨ih _, fun hc => ?_⟩
      exact digitChar_lt_ne_slash (Nat.mod_lt _ (by decide)) hc.symm

theorem natToDecCharsAux_ne_nil (fuel n : Nat) :
    natToDecCharsAux (fuel + 1) n ≠ [] := by
  simp only [natToDecCharsAux]
  split <;> simp

theorem fmt02_no_slash (n : Nat) : ('/' : Char) ∉ (fmt02 n).toList := by
  have h0 : ('/' : Char) ∉ (natToDec n).toList := natToDecCharsAux_no_slash _ _
  unfold fmt02
  split
  · rw [toList_append]
    simp only [List.mem_append, not_or]
    exact ⟨by decide, h0⟩
  · exact h0

theorem natToDec_length_pos (n : Nat) : 1 ≤ (natToDec n).length := by
  rw [length_eq_toList_length]
  have h := natToDecCharsAux_ne_nil n n
  cases h' : natToDecChars n with
  | nil => exact absurd h' h
  | cons c cs => simp [natToDec, h', List.length_cons]

theorem fmt02_length (n : Nat) : 2 ≤ (fmt02 n).length := by
  unfold fmt02
  split
  · rw [length_eq_toList_length, toList_append, List.length_append]
    have h := natToDec_length_pos n
    rw [length_eq_toList_length] at h
    have : ("0" : String).toList.length = 1 := by decide
    omega
  · rw [length_eq_toList_length]
    rename_i hge
    show 2 ≤ (natToDecChars n).length
    obtain ⟨m, rfl⟩ : ∃ m, n = m + 1 := ⟨n - 1, by omega⟩
    show 2 ≤ (natToDecCharsAux (m + 1 + 1) (m + 1)).length
    rw [show natToDecCharsAux (m + 1 + 1) (m + 1)
          = natToDecCharsAux (m + 1) ((m + 1) / 10) ++ [digitChar ((m + 1) % 10)]
        from by simp only [natToDecCharsAux, if_neg hge]]
    rw [List.length_append]
    have h2 : 0 < (natToDecCharsAux (m + 1) ((m + 1) / 10)).length :=
      List.length_pos.mpr (natToDecCharsAux_ne_nil m ((m + 1) / 10))
    simp only [List.length_cons, List.length_nil]
    omega

theorem pathExtension_eq_none_of_fileName {s : String} (h : pathFileName s = none) :
    pathExtension s = none := by
  unfold pathExtension
  rw [h]
  rfl

theorem get_file_intent_after_filters (gd : String → Option Descriptor)
    (cet csn : String → String) (s : String) (rules : FilterRules) (cache : TvdbCache)
    (ext fn : String) (d : Descriptor)
    (hext : pathExtension s = some ext)
    (hfn : pathFileName s = some fn)
    (hbl : memStr rules.blacklist_extensions ext = false)
    (hwf : anyFolderWhitelisted rules (pathIterStrings s) = false)
    (hwn : memStr rules.whitelist_filenames fn = false)
    (hgd : gd fn = some d) :
    get_file_intent gd cet csn s rules cache =
      match computeNewFilename cet csn rules cache ext d with
      | none => none
      | some nf =>
        if pathComponents (pathJoin ("Season " ++ fmt02 d.season) nf) = pathComponents s then
          some ⟨Action.Complete, "", some ⟨d.season, d.episode⟩⟩
        else
          some ⟨Action.Rename, pathJoin ("Season " ++ fmt02 d.season) nf,
            some ⟨d.season, d.episode⟩⟩ := by
  simp [get_file_intent, hext, hfn, hbl, hwf, hwn, hgd]

/-! ## The claims -/

/-- C8: a path with no extension, or no filename component at all, is
classified Delete with empty `dest` and absent descriptor, for every rule
set and cache (so before any blacklist or whitelist rule is consulted). -/
theorem C8_malformed_path_delete (gd : String → Option Descriptor)
    (cet csn : String → String) (s : String) (rules : FilterRules) (cache : TvdbCache)
    (h : pathExtension s = none ∨ pathFileName s = none) :
    get_file_intent gd cet csn s rules cache = some ⟨Action.Delete, "", none⟩ := by
  have hext : pathExtension s = none := by
    rcases h with h | h
    · exact h
    · exact pathExtension_eq_none_of_fileName h
  unfold get_file_intent
  rw [hext]

/-- Witness for C8 at the empty path. -/
theorem C8_malformed_path_delete_witness :
    (pathExtension "" = none ∨ pathFileName "" = none) ∧
      get_file_intent (fun _ => none) id id "" ⟨[], [], [], []⟩ ⟨⟨""⟩, [], []⟩ =
        some ⟨Action.Delete, "", none⟩ :=
  ⟨Or.inl (by decide),
   C8_malformed_path_delete _ _ _ _ _ _ (Or.inl (by decide))⟩

/-- C10: whenever extension extraction succeeds, filename extraction also
succeeds (`Path::extension` is derived from `Path::file_name`), so the
Delete branch for a missing filename is unreachable. -/
theorem C10_extension_implies_filename (s ext : String)
    (h : pathExtension s = some ext) : ∃ f, pathFileName s = some f := by
  unfold pathExtension at h
  cases hf : pathFileName s with
  | none => rw [hf] at h; simp at h
  | some f => exact ⟨f, rfl⟩

/-- Witness for C10 at a concrete path. -/
theorem C10_extension_implies_filename_witness :
    pathExtension "a.mkv" = some "mkv" ∧ ∃ f, pathFileName "a.mkv" = some f :=
  ⟨by decide, C10_extension_implies_filename "a.mkv" "mkv" (by decide)⟩

/-- C7: a path that passes every filter rule but whose filename yields no
descriptor is classified Ignore with empty `dest` and absent descriptor;
there is no distinct error value for unrecognized names. -/
theorem C7_no_descriptor_ignore (gd : String → Option Descriptor)
    (cet csn : String → String) (s : String) (rules : FilterRules) (cache : TvdbCache)
    (ext fn : String)
    (hext : pathExtension s = some ext)
    (hfn : pathFileName s = some fn)
    (hbl : memStr rules.blacklist_extensions ext = false)
    (hwf : anyFolderWhitelisted rules (pathIterStrings s) = false)
    (hwn : memStr rules.whitelist_filenames fn = false)
    (hgd : gd fn = none) :
    get_file_intent gd cet csn s rules cache = some ⟨Action.Ignore, "", none⟩ := by
  simp [get_file_intent, hext, hfn, hbl, hwf, hwn, hgd]

/-- Witness for C7 at path "notes.txt". -/
theorem C7_no_descriptor_ignore_witness :
    get_file_intent (fun _ => none) id id "notes.txt" ⟨[], [], [], []⟩ ⟨⟨"Show"⟩, [], []⟩ =
      some ⟨Action.Ignore, "", none⟩ :=
  C7_no_descriptor_ignore _ _ _ _ _ _ "txt" "notes.txt"
    (by decide) (by decide) (by decide) (by decide) (by decide) rfl

/-- C1: for every path with a filename and extension the checks fire in a
fixed priority order: blacklisted extension gives Delete (for every
whitelist content and every descriptor extractor, so even if the filename
matches an episode pattern); otherwise a whitelisted path component gives
Whitelist; otherwise a whitelisted filename gives Whitelist; only when none
fire does the descriptor extractor decide the outcome (its no-match answer
is then visible as Ignore). -/
theorem C1_filter_priority (gd : String → Option Descriptor)
    (cet csn : String → String) (s : String) (rules : FilterRules) (cache : TvdbCache)
    (ext fn : String)
    (hext : pathExtension s = some ext)
    (hfn : pathFileName s = some fn) :
    (memStr rules.blacklist_extensions ext = true →
      get_file_intent gd cet csn s rules cache = some ⟨Action.Delete, "", none⟩)
    ∧ (memStr rules.blacklist_extensions ext = false →
      anyFolderWhitelisted rules (pathIterStrings s) = true →
      get_file_intent gd cet csn s rules cache = some ⟨Action.Whitelist, "", none⟩)
    ∧ (memStr rules.blacklist_extensions ext = false →
      anyFolderWhitelisted rules (pathIterStrings s) = false →
      memStr rules.whitelist_filenames fn = true →
      get_file_intent gd cet csn s rules cache = some ⟨Action.Whitelist, "", none⟩)
    ∧ (memStr rules.blacklist_extensions ext = false →
      anyFolderWhitelisted rules (pathIterStrings s) = false →
      memStr rules.whitelist_filenames fn = false →
      gd fn = none →
      get_file_intent gd cet csn s rules cache = some ⟨Action.Ignore, "", none⟩) := by
  refine ⟨fun h1 => ?_, fun h1 h2 => ?_, fun h1 h2 h3 => ?_, fun h1 h2 h3 h4 => ?_⟩ <;>
    simp [get_file_intent, hext, hfn, h1]
  · simp [h2]
  · simp [h2, h3]
  · simp [h2, h3, h4]

/-- Witness for C1: a blacklisted extension is deleted even though the
filename also matches an episode pattern and a whitelist folder entry is
present. -/
theorem C1_filter_priority_witness :
    (fun f => if f = "ep.S01E02.tmp" then some (⟨1, 2, []⟩ : Descriptor) else none)
        "ep.S01E02.tmp" = some ⟨1, 2, []⟩ ∧
      memStr ["tmp"] "tmp" = true ∧
      get_file_intent
        (fun f => if f = "ep.S01E02.tmp" then some (⟨1, 2, []⟩ : Descriptor) else none)
        id id "ep.S01E02.tmp" ⟨["tmp"], ["keep"], ["other"], []⟩ ⟨⟨"Show"⟩, [], []⟩ =
        some ⟨Action.Delete, "", none⟩ :=
  ⟨by decide, by decide,
   (C1_filter_priority _ _ _ _ _ _ "tmp" "ep.S01E02.tmp" (by decide) (by decide)).1
     (by decide)⟩

theorem lookupIndex_mem {m : List (EpisodeKey × Nat)} {k : EpisodeKey} {v : Nat}
    (h : lookupIndex m k = some v) : (k, v) ∈ m := by
  induction m with
  | nil => simp [lookupIndex] at h
  | cons p rest ih =>
    obtain ⟨k', v'⟩ := p
    unfold lookupIndex at h
    by_cases hk : k' = k
    · rw [if_pos hk] at h
      injection h with h
      subst hk; subst h
      exact List.mem_cons_self _ _
    · rw [if_neg hk] at h
      exact List.mem_cons_of_mem _ (ih h)

theorem computeEpisodeTitle?_isSome (cet : String → String) (cache : TvdbCache)
    (k : EpisodeKey)
    (hvalid : ∀ p ∈ cache.episode_cache, p.2 < cache.episodes.length) :
    ∃ t, computeEpisodeTitle? cet cache k = some t := by
  unfold computeEpisodeTitle?
  cases hl : lookupIndex cache.episode_cache k with
  | none => exact ⟨"", rfl⟩
  | some idx =>
    have hlt : idx < cache.episodes.length := hvalid _ (lookupIndex_mem hl)
    obtain ⟨ep, hep⟩ : ∃ ep, cache.episodes.get? idx = some ep := by
      rw [List.get?_eq_get hlt]
      exact ⟨_, rfl⟩
    simp only [hep]
    cases hn : ep.name with
    | none => exact ⟨"", by simp⟩
    | some name =>
      by_cases hc : cet name = ""
      · exact ⟨"", by simp [hc]⟩
      · exact ⟨"-" ++ cet name, by simp [hc]⟩

theorem computeNewFilename_ne_none (cet csn : String → String) (rules : FilterRules)
    (cache : TvdbCache) (ext : String) (d : Descriptor)
    (hvalid : ∀ p ∈ cache.episode_cache, p.2 < cache.episodes.length) :
    computeNewFilename cet csn rules cache ext d ≠ none := by
  obtain ⟨t, ht⟩ := computeEpisodeTitle?_isSome cet cache ⟨d.season, d.episode⟩ hvalid
  unfold computeNewFilename
  rw [ht]
  simp

/-- C9: with every cached index valid for the episode collection, the
engine is total — it never hits the out-of-bounds panic, and the returned
action is one of the five terminal actions. -/
theorem C9_engine_total (gd : String → Option Descriptor) (cet csn : String → String)
    (s : String) (rules : FilterRules) (cache : TvdbCache)
    (hvalid : ∀ p ∈ cache.episode_cache, p.2 < cache.episodes.length) :
    ∃ i, get_file_intent gd cet csn s rules cache = some i ∧
      (i.action = Action.Rename ∨ i.action = Action.Complete ∨
       i.action = Action.Ignore ∨ i.action = Action.Delete ∨
       i.action = Action.Whitelist) := by
  have hsome : (get_file_intent gd cet csn s rules cache).isSome = true := by
    unfold get_file_intent
    split
    · rfl
    · split
      · rfl
      · split
        · rfl
        · split
          · rfl
          · split
            · rfl
            · split
              · rfl
              · split
                · rename_i hnone
                  exact absurd hnone (computeNewFilename_ne_none _ _ _ _ _ _ hvalid)
                · dsimp only
                  split <;> rfl
  obtain ⟨i, hi⟩ := Option.isSome_iff_exists.mp hsome
  refine ⟨i, hi, ?_⟩
  cases h : i.action <;> simp

/-- Witness for C9 with a one-entry cache whose index is valid. -/
theorem C9_engine_total_witness :
    (∀ p ∈ ([(⟨1, 2⟩, 0)] : List (EpisodeKey × Nat)), p.2 < ([⟨some "Pilot"⟩] : List Episode).length) ∧
      ∃ i, get_file_intent (fun _ => some ⟨1, 2, []⟩) id id "Show.S01E02.mkv"
          ⟨[], [], [], []⟩ ⟨⟨"Show"⟩, [⟨some "Pilot"⟩], [(⟨1, 2⟩, 0)]⟩ = some i ∧
        (i.action = Action.Rename ∨ i.action = Action.Complete ∨
         i.action = Action.Ignore ∨ i.action = Action.Delete ∨
         i.action = Action.Whitelist) :=
  ⟨by decide,
   C9_engine_total (fun _ => some ⟨1, 2, []⟩) id id "Show.S01E02.mkv"
     ⟨[], [], [], []⟩ ⟨⟨"Show"⟩, [⟨some "Pilot"⟩], [(⟨1, 2⟩, 0)]⟩ (by decide)⟩

theorem dest_empty_of_not_rename (gd : String → Option Descriptor)
    (cet csn : String → String) (s : String) (rules : FilterRules) (cache : TvdbCache)
    (i : FileIntent) (h : get_file_intent gd cet csn s rules cache = some i)
    (hna : i.action ≠ Action.Rename) : i.dest = "" := by
  unfold get_file_intent at h
  split at h
  · injection h with h; rw [← h]
  · split at h
    · injection h with h; rw [← h]
    · split at h
      · injection h with h; rw [← h]
      · split at h
        · injection h with h; rw [← h]
        · split at h
          · injection h with h; rw [← h]
          · split at h
            · injection h with h; rw [← h]
            · split at h
              · exact Option.noConfusion h
              · dsimp only at h
                split at h
                · injection h with h; rw [← h]
                · injection h with h
                  rw [← h] at hna
                  exact absurd rfl hna

/-- C3: with a descriptor extracted (and the title lookup not panicking),
the engine returns Complete when the candidate path equals the input path
component-wise, and Rename with `dest` set to the candidate otherwise; in
every non-Rename outcome the `dest` field is empty. -/
theorem C3_complete_vs_rename (gd : String → Option Descriptor)
    (cet csn : String → String) (s : String) (rules : FilterRules) (cache : TvdbCache)
    (ext fn nf : String) (d : Descriptor)
    (hext : pathExtension s = some ext)
    (hfn : pathFileName s = some fn)
    (hbl : memStr rules.blacklist_extensions ext = false)
    (hwf : anyFolderWhitelisted rules (pathIterStrings s) = false)
    (hwn : memStr rules.whitelist_filenames fn = false)
    (hgd : gd fn = some d)
    (hnf : computeNewFilename cet csn rules cache ext d = some nf) :
    (pathComponents (pathJoin ("Season " ++ fmt02 d.season) nf) = pathComponents s →
      get_file_intent gd cet csn s rules cache =
        some ⟨Action.Complete, "", some ⟨d.season, d.episode⟩⟩)
    ∧ (pathComponents (pathJoin ("Season " ++ fmt02 d.season) nf) ≠ pathComponents s →
      get_file_intent gd cet csn s rules cache =
        some ⟨Action.Rename, pathJoin ("Season " ++ fmt02 d.season) nf,
          some ⟨d.season, d.episode⟩⟩)
    ∧ (∀ s2 rules2 cache2 i, get_file_intent gd cet csn s2 rules2 cache2 = some i →
      i.action ≠ Action.Rename → i.dest = "") := by
  have hmain : get_file_intent gd cet csn s rules cache =
      if pathComponents (pathJoin ("Season " ++ fmt02 d.season) nf) = pathComponents s then
        some ⟨Action.Complete, "", some ⟨d.season, d.episode⟩⟩
      else
        some ⟨Action.Rename, pathJoin ("Season " ++ fmt02 d.season) nf,
          some ⟨d.season, d.episode⟩⟩ := by
    rw [get_file_intent_after_filters gd cet csn s rules cache ext fn d
      hext hfn hbl hwf hwn hgd, hnf]
  refine ⟨fun hsame => ?_, fun hdiff => ?_,
    fun s2 rules2 cache2 i h hna => dest_empty_of_not_rename _ _ _ _ _ _ _ h hna⟩
  · rw [hmain, if_pos hsame]
  · rw [hmain, if_neg hdiff]

/-- Witness for C3: the Complete side at the canonical path, with every
hypothesis discharged concretely. -/
theorem C3_complete_vs_rename_witness :
    pathComponents (pathJoin ("Season " ++ fmt02 1) "Show-S01E02.mkv") =
        pathComponents "Season 01/Show-S01E02.mkv" ∧
      get_file_intent (fun _ => some ⟨1, 2, []⟩) id id "Season 01/Show-S01E02.mkv"
        ⟨[], [], [], []⟩ ⟨⟨"Show"⟩, [], []⟩ =
        some ⟨Action.Complete, "", some ⟨1, 2⟩⟩ :=
  ⟨by decide,
   (C3_complete_vs_rename (fun _ => some ⟨1, 2, []⟩) id id "Season 01/Show-S01E02.mkv"
      ⟨[], [], [], []⟩ ⟨⟨"Show"⟩, [], []⟩ "mkv" "Show-S01E02.mkv" "Show-S01E02.mkv"
      ⟨1, 2, []⟩ (by decide) (by decide) (by decide) (by decide) (by decide) rfl
      (by decide)).1 (by decide)⟩

/-- C2: with a descriptor extracted and the title suffix computed, the
candidate destination is exactly
`cleaned_series_name ++ "-S" ++ season ++ "E" ++ episode ++ title_suffix
++ tags_segment ++ "." ++ original_extension` under the folder
`"Season " ++ season`, with season and episode zero-padded to at least two
digits; for values of at least 10 (hence also at least 100) the rendering
is the full decimal string, so nothing is truncated. -/
theorem C2_destination_format (gd : String → Option Descriptor)
    (cet csn : String → String) (s : String) (rules : FilterRules) (cache : TvdbCache)
    (ext fn t : String) (d : Descriptor)
    (hext : pathExtension s = some ext)
    (hfn : pathFileName s = some fn)
    (hbl : memStr rules.blacklist_extensions ext = false)
    (hwf : anyFolderWhitelisted rules (pathIterStrings s) = false)
    (hwn : memStr rules.whitelist_filenames fn = false)
    (hgd : gd fn = some d)
    (ht : computeEpisodeTitle? cet cache ⟨d.season, d.episode⟩ = some t) :
    (get_file_intent gd cet csn s rules cache =
      if pathComponents (pathJoin ("Season " ++ fmt02 d.season)
          (csn cache.series.name ++ "-S" ++ fmt02 d.season ++ "E" ++ fmt02 d.episode
            ++ t ++ computeTagsString rules d.tags ++ "." ++ ext)) = pathComponents s then
        some ⟨Action.Complete, "", some ⟨d.season, d.episode⟩⟩
      else
        some ⟨Action.Rename,
          pathJoin ("Season " ++ fmt02 d.season)
            (csn cache.series.name ++ "-S" ++ fmt02 d.season ++ "E" ++ fmt02 d.episode
              ++ t ++ computeTagsString rules d.tags ++ "." ++ ext),
          some ⟨d.season, d.episode⟩⟩)
    ∧ (∀ n, 2 ≤ (fmt02 n).length)
    ∧ (∀ n, 10 ≤ n → fmt02 n = natToDec n) := by
  have hnf : computeNewFilename cet csn rules cache ext d =
      some (csn cache.series.name ++ "-S" ++ fmt02 d.season ++ "E" ++ fmt02 d.episode
        ++ t ++ computeTagsString rules d.tags ++ "." ++ ext) := by
    unfold computeNewFilename
    rw [ht]
    rfl
  refine ⟨?_, fmt02_length, fun n hn => ?_⟩
  · rw [get_file_intent_after_filters gd cet csn s rules cache ext fn d
      hext hfn hbl hwf hwn hgd, hnf]
  · unfold fmt02
    rw [if_neg (Nat.not_lt.mpr hn)]

/-- Witness for C2 with a cached episode title and a surviving tag. -/
theorem C2_destination_format_witness :
    computeEpisodeTitle? id ⟨⟨"Show"⟩, [⟨some "Pilot"⟩], [(⟨1, 2⟩, 0)]⟩ ⟨1, 2⟩ =
        some "-Pilot" ∧
      ((get_file_intent (fun _ => some ⟨1, 2, ["720p"]⟩) id id "x.mkv"
          ⟨[], [], [], ["720p"]⟩ ⟨⟨"Show"⟩, [⟨some "Pilot"⟩], [(⟨1, 2⟩, 0)]⟩ =
        if pathComponents (pathJoin ("Season " ++ fmt02 1)
            ("Show" ++ "-S" ++ fmt02 1 ++ "E" ++ fmt02 2 ++ "-Pilot"
              ++ computeTagsString ⟨[], [], [], ["720p"]⟩ ["720p"] ++ "." ++ "mkv")) =
            pathComponents "x.mkv" then
          some ⟨Action.Complete, "", some ⟨1, 2⟩⟩
        else
          some ⟨Action.Rename,
            pathJoin ("Season " ++ fmt02 1)
              ("Show" ++ "-S" ++ fmt02 1 ++ "E" ++ fmt02 2 ++ "-Pilot"
                ++ computeTagsString ⟨[], [], [], ["720p"]⟩ ["720p"] ++ "." ++ "mkv"),
            some ⟨1, 2⟩⟩)
      ∧ (∀ n, 2 ≤ (fmt02 n).length)
      ∧ (∀ n, 10 ≤ n → fmt02 n = natToDec n)) :=
  ⟨by decide,
   C2_destination_format (fun _ => some ⟨1, 2, ["720p"]⟩) id id "x.mkv"
     ⟨[], [], [], ["720p"]⟩ ⟨⟨"Show"⟩, [⟨some "Pilot"⟩], [(⟨1, 2⟩, 0)]⟩
     "mkv" "x.mkv" "-Pilot" ⟨1, 2, ["720p"]⟩
     (by decide) (by decide) (by decide) (by decide) (by decide) rfl (by decide)⟩

/-- C5: the engine's tags segment coincides with the spec-side
filter-format-concatenate segment; the destination of a Rename uses it; a
non-whitelisted tag never enters the filtered tag list, the surviving tags
keep their original order (the filtered list is a sublist), and when no
tag survives the segment is empty. -/
theorem C5_tag_filtering (gd : String → Option Descriptor)
    (cet csn : String → String) (s : String) (rules : FilterRules) (cache : TvdbCache)
    (ext fn t : String) (d : Descriptor)
    (hext : pathExtension s = some ext)
    (hfn : pathFileName s = some fn)
    (hbl : memStr rules.blacklist_extensions ext = false)
    (hwf : anyFolderWhitelisted rules (pathIterStrings s) = false)
    (hwn : memStr rules.whitelist_filenames fn = false)
    (hgd : gd fn = some d)
    (ht : computeEpisodeTitle? cet cache ⟨d.season, d.episode⟩ = some t) :
    (computeTagsString rules d.tags = specTagsSegment rules.whitelist_tags d.tags)
    ∧ (∀ i, get_file_intent gd cet csn s rules cache = some i →
      i.action = Action.Rename →
      i.dest = pathJoin ("Season " ++ fmt02 d.season)
        (csn cache.series.name ++ "-S" ++ fmt02 d.season ++ "E" ++ fmt02 d.episode
          ++ t ++ specTagsSegment rules.whitelist_tags d.tags ++ "." ++ ext))
    ∧ (∀ tg, memStr rules.whitelist_tags tg = false →
      tg ∉ d.tags.filter (fun x => memStr rules.whitelist_tags x))
    ∧ List.Sublist (d.tags.filter (fun tg => memStr rules.whitelist_tags tg)) d.tags
    ∧ (d.tags.filter (fun tg => memStr rules.whitelist_tags tg) = [] →
      specTagsSegment rules.whitelist_tags d.tags = "") := by
  have hnf : computeNewFilename cet csn rules cache ext d =
      some (csn cache.series.name ++ "-S" ++ fmt02 d.season ++ "E" ++ fmt02 d.episode
        ++ t ++ computeTagsString rules d.tags ++ "." ++ ext) := by
    unfold computeNewFilename
    rw [ht]
    rfl
  have hmain : get_file_intent gd cet csn s rules cache =
      if pathComponents (pathJoin ("Season " ++ fmt02 d.season)
          (csn cache.series.name ++ "-S" ++ fmt02 d.season ++ "E" ++ fmt02 d.episode
            ++ t ++ computeTagsString rules d.tags ++ "." ++ ext)) = pathComponents s then
        some ⟨Action.Complete, "", some ⟨d.season, d.episode⟩⟩
      else
        some ⟨Action.Rename,
          pathJoin ("Season " ++ fmt02 d.season)
            (csn cache.series.name ++ "-S" ++ fmt02 d.season ++ "E" ++ fmt02 d.episode
              ++ t ++ computeTagsString rules d.tags ++ "." ++ ext),
          some ⟨d.season, d.episode⟩⟩ := by
    rw [get_file_intent_after_filters gd cet csn s rules cache ext fn d
      hext hfn hbl hwf hwn hgd, hnf]
  refine ⟨rfl, fun i hi hact => ?_, fun tg htg => ?_, List.filter_sublist _, fun hempty => ?_⟩
  · rw [hmain] at hi
    split at hi
    · injection hi with hi
      rw [← hi] at hact
      exact Action.noConfusion hact
    · injection hi with hi
      rw [← hi]
      rfl
  · intro hmem
    rw [List.mem_filter] at hmem
    rw [hmem.2] at htg
    exact Bool.noConfusion htg
  · unfold specTagsSegment
    rw [hempty]
    rfl

/-- Witness for C5 with one surviving and one dropped tag. -/
theorem C5_tag_filtering_witness :
    memStr ["720p"] "x264" = false ∧
      (computeTagsString ⟨[], [], [], ["720p"]⟩ ["x264", "720p"] =
          specTagsSegment ["720p"] ["x264", "720p"]
        ∧ (∀ i, get_file_intent (fun _ => some ⟨1, 2, ["x264", "720p"]⟩) id id "x.mkv"
              ⟨[], [], [], ["720p"]⟩ ⟨⟨"Show"⟩, [], []⟩ = some i →
          i.action = Action.Rename →
          i.dest = pathJoin ("Season " ++ fmt02 1)
            ("Show" ++ "-S" ++ fmt02 1 ++ "E" ++ fmt02 2 ++ ""
              ++ specTagsSegment ["720p"] ["x264", "720p"] ++ "." ++ "mkv"))
        ∧ (∀ tg, memStr ["720p"] tg = false →
          tg ∉ (["x264", "720p"] : List String).filter (fun x => memStr ["720p"] x))
        ∧ List.Sublist ((["x264", "720p"] : List String).filter (fun tg => memStr ["720p"] tg))
            ["x264", "720p"]
        ∧ ((["x264", "720p"] : List String).filter (fun tg => memStr ["720p"] tg) = [] →
          specTagsSegment ["720p"] ["x264", "720p"] = "")) :=
  ⟨by decide,
   C5_tag_filtering (fun _ => some ⟨1, 2, ["x264", "720p"]⟩) id id "x.mkv"
     ⟨[], [], [], ["720p"]⟩ ⟨⟨"Show"⟩, [], []⟩ "mkv" "x.mkv" "" ⟨1, 2, ["x264", "720p"]⟩
     (by decide) (by decide) (by decide) (by decide) (by decide) rfl (by decide)⟩

/-- C6: a metadata miss is not an error: a cache miss, a missing episode
title, or a title cleaning to the empty string all give the empty suffix,
and a found non-empty cleaned title gives `"-" ++ title`; in every such
case classification still completes with Complete or Rename. -/
theorem C6_title_miss_not_error (gd : String → Option Descriptor)
    (cet csn : String → String) (s : String) (rules : FilterRules) (cache : TvdbCache)
    (ext fn : String) (d : Descriptor)
    (hext : pathExtension s = some ext)
    (hfn : pathFileName s = some fn)
    (hbl : memStr rules.blacklist_extensions ext = false)
    (hwf : anyFolderWhitelisted rules (pathIterStrings s) = false)
    (hwn : memStr rules.whitelist_filenames fn = false)
    (hgd : gd fn = some d) :
    (lookupIndex cache.episode_cache ⟨d.season, d.episode⟩ = none →
      computeEpisodeTitle? cet cache ⟨d.season, d.episode⟩ = some "")
    ∧ (∀ idx ep, lookupIndex cache.episode_cache ⟨d.season, d.episode⟩ = some idx →
      cache.episodes.get? idx = some ep → ep.name = none →
      computeEpisodeTitle? cet cache ⟨d.season, d.episode⟩ = some "")
    ∧ (∀ idx ep nm, lookupIndex cache.episode_cache ⟨d.season, d.episode⟩ = some idx →
      cache.episodes.get? idx = some ep → ep.name = some nm → cet nm = "" →
      computeEpisodeTitle? cet cache ⟨d.season, d.episode⟩ = some "")
    ∧ (∀ idx ep nm, lookupIndex cache.episode_cache ⟨d.season, d.episode⟩ = some idx →
      cache.episodes.get? idx = some ep → ep.name = some nm → cet nm ≠ "" →
      computeEpisodeTitle? cet cache ⟨d.season, d.episode⟩ = some ("-" ++ cet nm))
    ∧ (∀ t, computeEpisodeTitle? cet cache ⟨d.season, d.episode⟩ = some t →
      ∃ i, get_file_intent gd cet csn s rules cache = some i ∧
        (i.action = Action.Complete ∨ i.action = Action.Rename)) := by
  refine ⟨fun hl => ?_, fun idx ep hl hep hn => ?_, fun idx ep nm hl hep hn hc => ?_,
    fun idx ep nm hl hep hn hc => ?_, fun t ht => ?_⟩
  · unfold computeEpisodeTitle?
    rw [hl]
  · unfold computeEpisodeTitle?
    rw [hl]
    simp only [hep, hn]
  · unfold computeEpisodeTitle?
    rw [hl]
    simp only [hep, hn]
    simp [hc]
  · unfold computeEpisodeTitle?
    rw [hl]
    simp only [hep, hn]
    simp [hc]
  · have hnf : computeNewFilename cet csn rules cache ext d =
        some (csn cache.series.name ++ "-S" ++ fmt02 d.season ++ "E" ++ fmt02 d.episode
          ++ t ++ computeTagsString rules d.tags ++ "." ++ ext) := by
      unfold computeNewFilename
      rw [ht]
      rfl
    have hmain := get_file_intent_after_filters gd cet csn s rules cache ext fn d
      hext hfn hbl hwf hwn hgd
    rw [hnf] at hmain
    by_cases hsame : pathComponents (pathJoin ("Season " ++ fmt02 d.season)
        (csn cache.series.name ++ "-S" ++ fmt02 d.season ++ "E" ++ fmt02 d.episode
          ++ t ++ computeTagsString rules d.tags ++ "." ++ ext)) = pathComponents s
    · refine ⟨⟨Action.Complete, "", some ⟨d.season, d.episode⟩⟩, ?_, Or.inl rfl⟩
      rw [hmain]
      simp [hsame]
    · refine ⟨⟨Action.Rename,
        pathJoin ("Season " ++ fmt02 d.season)
          (csn cache.series.name ++ "-S" ++ fmt02 d.season ++ "E" ++ fmt02 d.episode
            ++ t ++ computeTagsString rules d.tags ++ "." ++ ext),
        some ⟨d.season, d.episode⟩⟩, ?_, Or.inr rfl⟩
      rw [hmain]
      simp [hsame]

/-- Witness for C6 at a cache with no entry for the extracted key. -/
theorem C6_title_miss_not_error_witness :
    lookupIndex ([] : List (EpisodeKey × Nat)) ⟨1, 2⟩ = none ∧
      computeEpisodeTitle? id ⟨⟨"Show"⟩, [], []⟩ ⟨1, 2⟩ = some "" ∧
      ∃ i, get_file_intent (fun _ => some ⟨1, 2, []⟩) id id "x.mkv"
          ⟨[], [], [], []⟩ ⟨⟨"Show"⟩, [], []⟩ = some i ∧
        (i.action = Action.Complete ∨ i.action = Action.Rename) :=
  ⟨by decide,
   (C6_title_miss_not_error (fun _ => some ⟨1, 2, []⟩) id id "x.mkv"
      ⟨[], [], [], []⟩ ⟨⟨"Show"⟩, [], []⟩ "mkv" "x.mkv" ⟨1, 2, []⟩
      (by decide) (by decide) (by decide) (by decide) (by decide) rfl).1 (by decide),
   (C6_title_miss_not_error (fun _ => some ⟨1, 2, []⟩) id id "x.mkv"
      ⟨[], [], [], []⟩ ⟨⟨"Show"⟩, [], []⟩ "mkv" "x.mkv" ⟨1, 2, []⟩
      (by decide) (by decide) (by decide) (by decide) (by decide) rfl).2.2.2.2 ""
     (by decide)⟩

theorem getLastD_mem_of_ne_nil {α : Type} (l : List α) (dflt : α) (h : l ≠ []) :
    l.getLastD dflt ∈ l := by
  induction l generalizing dflt with
  | nil => exact absurd rfl h
  | cons a l ih =>
    rw [List.getLastD_cons]
    cases l with
    | nil => simp
    | cons b m => exact List.mem_cons_of_mem a (ih a (by simp))

theorem extensionOfFileName_no_dot {f e : String}
    (h : extensionOfFileName f = some e) : ('.' : Char) ∉ e.toList := by
  unfold extensionOfFileName at h
  split at h
  · exact Option.noConfusion h
  · split at h
    · exact Option.noConfusion h
    · exact Option.noConfusion h
    · rename_i p q ps hparts
      dsimp only at h
      split at h
      · exact Option.noConfusion h
      · injection h with h
        have hmem : (p :: q :: ps).getLastD [] ∈ f.toList.splitOn '.' := by
          rw [hparts]
          exact getLastD_mem_of_ne_nil _ _ (by simp)
        have := not_mem_of_mem_splitOn_char hmem
        rw [← h]
        exact this

theorem extensionOfFileName_decomp (nf : String) (base extc : List Char)
    (hnf : nf.toList = base ++ '.' :: extc)
    (hbase : base ≠ []) (hdot : ('.' : Char) ∉ extc) (hne : nf ≠ "..") :
    extensionOfFileName nf = some (String.mk extc) := by
  have hsplit0 : nf.toList.splitOn '.' = base.splitOn '.' ++ [extc] := by
    rw [hnf, splitOn_char_append, splitOn_char_of_not_mem hdot]
  unfold extensionOfFileName
  rw [if_neg hne]
  cases hsplit : base.splitOn '.' with
  | nil => exact absurd hsplit (splitOn_char_ne_nil '.' base)
  | cons p ps =>
    rw [hsplit] at hsplit0
    cases hq : ps ++ [extc] with
    | nil => exact absurd hq (by simp)
    | cons q qs =>
      rw [List.cons_append, hq] at hsplit0
      rw [hsplit0]
      dsimp only
      have hshape : p :: q :: qs = (p :: ps) ++ [extc] := by
        rw [List.cons_append, hq]
      have hd : (p :: q :: qs).dropLast = p :: ps := by
        rw [hshape]
        exact List.dropLast_concat
      have hl : (p :: q :: qs).getLastD [] = extc := by
        rw [hshape]
        exact List.getLastD_concat _ _ _
      have hbase' : List.intercalate ['.'] (p :: ps) = base := by
        rw [← hsplit]
        exact intercalate_splitOn_char '.' base
      rw [hd, hl, hbase', if_neg hbase]

theorem pathJoin_no_slash (folder nf : String)
    (hf : folder.toList ≠ []) (hfs : ('/' : Char) ∉ folder.toList)
    (hn : nf.toList ≠ []) (hns : ('/' : Char) ∉ nf.toList) :
    pathJoin folder nf = folder ++ "/" ++ nf := by
  unfold pathJoin
  have hhead : nf.toList.head? ≠ some '/' := by
    cases hc : nf.toList with
    | nil => exact absurd hc hn
    | cons c cs =>
      simp only [List.head?]
      intro hcc
      injection hcc with hcc
      exact hns (hcc ▸ (hc ▸ List.mem_cons_self c cs))
  rw [if_neg hhead]
  cases hg : folder.toList.getLast? with
  | none => exact absurd (List.getLast?_eq_none_iff.mp hg) hf
  | some c =>
    have hcm : c ∈ folder.toList := List.mem_of_getLast?_eq_some hg
    have hcne : ¬ c = '/' := fun hc => hfs (hc ▸ hcm)
    dsimp only
    rw [if_neg hcne]

theorem pathComponents_two (folder nf : String)
    (hf_ne : folder.toList ≠ [])
    (hf_slash : ('/' : Char) ∉ folder.toList)
    (hn_ne : nf.toList ≠ [])
    (hn_slash : ('/' : Char) ∉ nf.toList)
    (hf_dot : folder.toList ≠ ['.'])
    (hn_dot : nf.toList ≠ ['.'])
    (hf_dd : folder.toList ≠ ['.', '.'])
    (hn_dd : nf.toList ≠ ['.', '.']) :
    pathComponents (folder ++ "/" ++ nf) =
      [PathComponent.normal folder, PathComponent.normal nf] := by
  have htl : (folder ++ "/" ++ nf).toList = folder.toList ++ '/' :: nf.toList := by
    rw [toList_append, toList_append]
    simp [List.append_assoc]
  obtain ⟨c, cs, hc⟩ : ∃ c cs, folder.toList = c :: cs := by
    cases h : folder.toList with
    | nil => exact absurd h hf_ne
    | cons a l => exact ⟨a, l, rfl⟩
  have hcslash : c ≠ '/' := fun h => hf_slash (h ▸ (hc ▸ List.mem_cons_self c cs))
  have hhead : (folder.toList ++ '/' :: nf.toList).head? = some c := by
    rw [hc]
    rfl
  simp only [pathComponents, pathPieces]
  rw [htl, splitOn_char_append, splitOn_char_of_not_mem hf_slash,
    splitOn_char_of_not_mem hn_slash, hhead]
  simp only [List.singleton_append, List.filter_cons, List.filter_nil]
  have hf_ne' : folder.data ≠ [] := hf_ne
  have hn_ne' : nf.data ≠ [] := hn_ne
  have hf_dot' : folder.data ≠ ['.'] := hf_dot
  have hn_dot' : nf.data ≠ ['.'] := hn_dot
  have hf_dd' : folder.data ≠ ['.', '.'] := hf_dd
  have hn_dd' : nf.data ≠ ['.', '.'] := hn_dd
  have hmkf : String.mk folder.data = folder := rfl
  have hmkn : String.mk nf.data = nf := rfl
  simp [hcslash, hf_ne', hn_ne', hf_dot', hn_dot', mkComponent, hf_dd', hn_dd',
    hmkf, hmkn]

theorem seasonFolder_facts (n : Nat) :
    ("Season " ++ fmt02 n).toList ≠ [] ∧
    ('/' : Char) ∉ ("Season " ++ fmt02 n).toList ∧
    ("Season " ++ fmt02 n).toList ≠ ['.'] ∧
    ("Season " ++ fmt02 n).toList ≠ ['.', '.'] := by
  have hcs : ("Season " ++ fmt02 n).toList = 'S' :: ("eason ".toList ++ (fmt02 n).toList) := by
    rw [toList_append]
    rfl
  refine ⟨by rw [hcs]; simp, ?_, ?_, ?_⟩
  · rw [toList_append]
    simp only [List.mem_append, not_or]
    exact ⟨by decide, fmt02_no_slash n⟩
  · rw [hcs]
    intro h
    injection h with h1 _
    exact absurd h1 (by decide)
  · rw [hcs]
    intro h
    injection h with h1 _
    exact absurd h1 (by decide)

/-- The classification run of `P` behind a Rename outcome, unpacked: the
blacklist test is false and the returned intent is the Rename record for
the computed candidate path. -/
theorem rename_inversion (gd : String → Option Descriptor)
    (cet csn : String → String) (P : String) (rules : FilterRules) (cache : TvdbCache)
    (ext fn nf : String) (d : Descriptor) (intent : FileIntent)
    (hres : get_file_intent gd cet csn P rules cache = some intent)
    (hact : intent.action = Action.Rename)
    (hext : pathExtension P = some ext)
    (hfn : pathFileName P = some fn)
    (hgd : gd fn = some d)
    (hnf : computeNewFilename cet csn rules cache ext d = some nf) :
    memStr rules.blacklist_extensions ext = false ∧
      intent = ⟨Action.Rename, pathJoin ("Season " ++ fmt02 d.season) nf,
        some ⟨d.season, d.episode⟩⟩ := by
  unfold get_file_intent at hres
  simp only [hext, hfn] at hres
  cases hbl : memStr rules.blacklist_extensions ext with
  | true =>
    simp only [hbl, if_true] at hres
    injection hres with hres
    rw [← hres] at hact
    exact Action.noConfusion hact
  | false =>
    simp only [hbl, Bool.false_eq_true, if_false] at hres
    cases hwfP : anyFolderWhitelisted rules (pathIterStrings P) with
    | true =>
      simp only [hwfP, if_true] at hres
      injection hres with hres
      rw [← hres] at hact
      exact Action.noConfusion hact
    | false =>
      simp only [hwfP, Bool.false_eq_true, if_false] at hres
      cases hwnP : memStr rules.whitelist_filenames fn with
      | true =>
        simp only [hwnP, if_true] at hres
        injection hres with hres
        rw [← hres] at hact
        exact Action.noConfusion hact
      | false =>
        simp only [hwnP, Bool.false_eq_true, if_false, hgd, hnf] at hres
        by_cases hcomp : pathComponents
            (pathJoin ("Season " ++ fmt02 d.season) nf) = pathComponents P
        · rw [if_pos hcomp] at hres
          injection hres with hres
          rw [← hres] at hact
          exact Action.noConfusion hact
        · rw [if_neg hcomp] at hres
          injection hres with hres
          exact ⟨rfl, hres.symm⟩

/-- C4 as stated is false: for the path "a.mkv" the engine returns Rename
with destination "Season 01/Show-S01E02.mkv", and that destination's
filename parses to the same descriptor, yet re-classifying the destination
returns Whitelist (not Complete), because the destination folder
"Season 01" is in `whitelist_folders` and the whitelist check runs before
descriptor extraction. -/
theorem C4_counterexample :
    get_file_intent
        (fun f => if f = "a.mkv" ∨ f = "Show-S01E02.mkv"
          then some (⟨1, 2, []⟩ : Descriptor) else none)
        id id "a.mkv" ⟨[], ["Season 01"], [], []⟩ ⟨⟨"Show"⟩, [], []⟩ =
      some ⟨Action.Rename, "Season 01/Show-S01E02.mkv", some ⟨1, 2⟩⟩ ∧
    pathFileName "Season 01/Show-S01E02.mkv" = some "Show-S01E02.mkv" ∧
    (fun f => if f = "a.mkv" ∨ f = "Show-S01E02.mkv"
        then some (⟨1, 2, []⟩ : Descriptor) else none) "Show-S01E02.mkv" =
      some ⟨1, 2, []⟩ ∧
    get_file_intent
        (fun f => if f = "a.mkv" ∨ f = "Show-S01E02.mkv"
          then some (⟨1, 2, []⟩ : Descriptor) else none)
        id id "Season 01/Show-S01E02.mkv" ⟨[], ["Season 01"], [], []⟩ ⟨⟨"Show"⟩, [], []⟩ =
      some ⟨Action.Whitelist, "", none⟩ := by
  decide

/-- C4, amended: if classifying `P` returns Rename with destination `D`,
`D`'s filename (which is the computed filename, provided the computed
filename contains no path separator) still parses to the same descriptor,
no path component of `D` is in `whitelist_folders`, and the computed
filename is not in `whitelist_filenames`, then classifying `D` returns
Complete — the rename is a stable fixed point. -/
theorem C4_rename_then_complete (gd : String → Option Descriptor)
    (cet csn : String → String) (P : String) (rules : FilterRules) (cache : TvdbCache)
    (ext fn nf : String) (d : Descriptor) (intent : FileIntent)
    (hres : get_file_intent gd cet csn P rules cache = some intent)
    (hact : intent.action = Action.Rename)
    (hext : pathExtension P = some ext)
    (hfn : pathFileName P = some fn)
    (hgd : gd fn = some d)
    (hnf : computeNewFilename cet csn rules cache ext d = some nf)
    (hsep : ('/' : Char) ∉ nf.toList)
    (hgd2 : gd nf = some d)
    (hwf2 : anyFolderWhitelisted rules (pathIterStrings intent.dest) = false)
    (hwn2 : memStr rules.whitelist_filenames nf = false) :
    get_file_intent gd cet csn intent.dest rules cache =
      some ⟨Action.Complete, "", some ⟨d.season, d.episode⟩⟩ := by
  obtain ⟨hbl, hint⟩ := rename_inversion gd cet csn P rules cache ext fn nf d intent
    hres hact hext hfn hgd hnf
  subst hint
  obtain ⟨hfne, hfslash, hfdot, hfdd⟩ := seasonFolder_facts d.season
  have hnf' : (computeEpisodeTitle? cet cache ⟨d.season, d.episode⟩).map
      (fun title => csn cache.series.name ++ "-S" ++ fmt02 d.season ++ "E"
        ++ fmt02 d.episode ++ title ++ computeTagsString rules d.tags ++ "." ++ ext) =
      some nf := hnf
  obtain ⟨t, ht, hnfeq⟩ := Option.map_eq_some'.mp hnf'
  obtain ⟨B, hnfB, hB2⟩ : ∃ B : String, nf = B ++ "." ++ ext ∧ 2 ≤ B.length := by
    refine ⟨csn cache.series.name ++ "-S" ++ fmt02 d.season ++ "E" ++ fmt02 d.episode
      ++ t ++ computeTagsString rules d.tags, hnfeq.symm, ?_⟩
    have hS : ("-S" : String).length = 2 := rfl
    have hE : ("E" : String).length = 1 := rfl
    simp [List.length_append]
    omega
  have hnfl : nf.toList = B.toList ++ '.' :: ext.toList := by
    have hdotlit : ("." : String).toList = ['.'] := rfl
    rw [hnfB, toList_append, toList_append]
    simp [hdotlit, List.append_assoc]
  have hBne : B.toList ≠ [] := by
    intro h
    have : B.length = 0 := by
      rw [length_eq_toList_length, h]
      rfl
    omega
  have hlen : 3 ≤ nf.toList.length := by
    rw [hnfl]
    simp [List.length_append]
    omega
  have hnfne : nf.toList ≠ [] := by
    intro h
    rw [h] at hlen
    simp at hlen
  have hnfdot : nf.toList ≠ ['.'] := by
    intro h
    rw [h] at hlen
    simp at hlen
  have hnfdd : nf.toList ≠ ['.', '.'] := by
    intro h
    rw [h] at hlen
    simp at hlen
  have hnfdd' : nf ≠ ".." := by
    intro h
    exact hnfdd (by rw [h]; rfl)
  have hextdot : ('.' : Char) ∉ ext.toList := by
    have h1 := hext
    unfold pathExtension at h1
    rw [hfn] at h1
    exact extensionOfFileName_no_dot h1
  have hD : pathJoin ("Season " ++ fmt02 d.season) nf =
      ("Season " ++ fmt02 d.season) ++ "/" ++ nf :=
    pathJoin_no_slash _ _ hfne hfslash hnfne hsep
  have hcomps : pathComponents (("Season " ++ fmt02 d.season) ++ "/" ++ nf) =
      [PathComponent.normal ("Season " ++ fmt02 d.season), PathComponent.normal nf] :=
    pathComponents_two _ _ hfne hfslash hnfne hsep hfdot hnfdot hfdd hnfdd
  have hfn2 : pathFileName (("Season " ++ fmt02 d.season) ++ "/" ++ nf) = some nf := by
    unfold pathFileName
    rw [hcomps]
    rfl
  have hext2 : pathExtension (("Season " ++ fmt02 d.season) ++ "/" ++ nf) = some ext := by
    unfold pathExtension
    rw [hfn2]
    show extensionOfFileName nf = some ext
    rw [extensionOfFileName_decomp nf B.toList ext.toList hnfl hBne hextdot hnfdd',
      mk_toList]
  have hwf2' : anyFolderWhitelisted rules
      (pathIterStrings (("Season " ++ fmt02 d.season) ++ "/" ++ nf)) = false := by
    rw [← hD]
    exact hwf2
  show get_file_intent gd cet csn (pathJoin ("Season " ++ fmt02 d.season) nf) rules cache =
    some ⟨Action.Complete, "", some ⟨d.season, d.episode⟩⟩
  rw [hD, get_file_intent_after_filters gd cet csn
    (("Season " ++ fmt02 d.season) ++ "/" ++ nf) rules cache ext nf d
    hext2 hfn2 hbl hwf2' hwn2 hgd2, hnf]
  dsimp only
  rw [hD, if_pos rfl]

/-- Witness for the amended C4 at a concrete rename. -/
theorem C4_rename_then_complete_witness :
    get_file_intent
        (fun f => if f = "a.mkv" ∨ f = "Show-S01E02.mkv"
          then some (⟨1, 2, []⟩ : Descriptor) else none)
        id id "Season 01/Show-S01E02.mkv" ⟨[], [], [], []⟩ ⟨⟨"Show"⟩, [], []⟩ =
      some ⟨Action.Complete, "", some ⟨1, 2⟩⟩ :=
  C4_rename_then_complete
    (fun f => if f = "a.mkv" ∨ f = "Show-S01E02.mkv"
      then some (⟨1, 2, []⟩ : Descriptor) else none)
    id id "a.mkv" ⟨[], [], [], []⟩ ⟨⟨"Show"⟩, [], []⟩
    "mkv" "a.mkv" "Show-S01E02.mkv" ⟨1, 2, []⟩
    ⟨Action.Rename, "Season 01/Show-S01E02.mkv", some ⟨1, 2⟩⟩
    (by decide) (by decide) (by decide) (by decide) (by decide) (by decide)
    (by decide) (by decide) (by decide) (by decide)

end FileIntentSpec
